import Mathlib

/-!
Verification of the `get_sys_lang` repository: an in-memory language-keyed
text catalog (`i18n_lang`) and a cross-platform system-locale query
(`get_sys_lang`).  The C++ `std::unordered_map` is modelled by association
lists with first-key-wins lookup; insertion order is irrelevant to every
observation made here, only the find/insert/overwrite semantics of the
member functions matter.  `std::string` values are modelled by `String`
(lists of characters); the `::tolower` / `::toupper` calls of the C locale
are modelled by ASCII-only case maps.  The default template instantiation
of `i18n_lang` is used: language keys are strings, text ids are the
numeric ids (`uint64_t`, only ever compared for equality, hence `Nat`),
texts are strings, and the sentinel is "TEXT_NOT_FOUND".
-/

/-- Model of `std::unordered_map::find`: first matching key, if any. -/
def mapFind {α β : Type} [DecidableEq α] (m : List (α × β)) (k : α) : Option β :=
  match m with
  | [] => none
  | (k', v) :: rest => if k' = k then some v else mapFind rest k

/-- Model of `map[k] = v`: overwrite the value when `k` is present,
append the pair when it is absent. -/
def mapSet {α β : Type} [DecidableEq α] (m : List (α × β)) (k : α) (v : β) : List (α × β) :=
  match m with
  | [] => [(k, v)]
  | (k', v') :: rest => if k' = k then (k', v) :: rest else (k', v') :: mapSet rest k v

/-- Model of `std::unordered_map::insert(first, last)`: each entry is added
only when its key is not yet present; existing keys are never overwritten. -/
def insertRange {α β : Type} [DecidableEq α] (m : List (α × β)) : List (α × β) → List (α × β)
  | [] => m
  | kv :: rest => insertRange (if (mapFind m kv.1).isSome then m else m ++ [kv]) rest

/-- The catalog state of class `i18n_lang` (default template arguments):
the configured default language and the two-level map `texts_`. -/
structure i18n_lang where
  default_lang_ : String
  texts_ : List (String × List (Nat × String))
deriving DecidableEq

namespace i18n_lang

/-- Model of the one-argument constructor `i18n_lang(lang_t default_lang)`:
the map starts empty. -/
def init (default_lang : String) : i18n_lang :=
  { default_lang_ := default_lang, texts_ := [] }

/-- Model of the two-argument constructor
`i18n_lang(lang_t default_lang, lang_text_map texts)`. -/
def initWith (default_lang : String) (texts : List (String × List (Nat × String))) : i18n_lang :=
  { default_lang_ := default_lang, texts_ := texts }

/-- The bucket `texts_[lang]` reads from: the existing inner map, or the
empty map that `operator[]` default-constructs when `lang` is absent. -/
def bucketOf (c : i18n_lang) (lang : String) : List (Nat × String) :=
  (mapFind c.texts_ lang).getD []

/-- Model of `set_text`: `texts_[lang][text_id] = text`. -/
def set_text (c : i18n_lang) (lang : String) (text_id : Nat) (text : String) : i18n_lang :=
  { c with texts_ := mapSet c.texts_ lang (mapSet (bucketOf c lang) text_id text) }

/-- Model of `set_texts`: `texts_[lang].insert(texts.begin(), texts.end())`. -/
def set_texts (c : i18n_lang) (lang : String) (texts : List (Nat × String)) : i18n_lang :=
  { c with texts_ := mapSet c.texts_ lang (insertRange (bucketOf c lang) texts) }

/-- Model of the static member `get_default_error_text`: the template
argument `DefaultErrorText`, which defaults to `U"TEXT_NOT_FOUND"`. -/
def get_default_error_text : String := "TEXT_NOT_FOUND"

/-- The second half of `get_text`: the fallback to the default language,
then to the static error text. -/
def get_text_fallback (c : i18n_lang) (text_id : Nat) : String :=
  match mapFind c.texts_ c.default_lang_ with
  | some bucket =>
    match mapFind bucket text_id with
    | some t => t
    | none => get_default_error_text
  | none => get_default_error_text

/-- Model of `get_text`: look in the requested language's bucket; any miss
falls through to `get_text_fallback`. -/
def get_text (c : i18n_lang) (lang : String) (text_id : Nat) : String :=
  match mapFind c.texts_ lang with
  | some bucket =>
    match mapFind bucket text_id with
    | some t => t
    | none => get_text_fallback c text_id
  | none => get_text_fallback c text_id

/-- `get_text` translated with the catalog state threaded through
explicitly: the body only calls the non-mutating `find` member, so every
path returns the incoming state unchanged together with the looked-up
text. -/
def get_text_st (c : i18n_lang) (lang : String) (text_id : Nat) : String × i18n_lang :=
  match mapFind c.texts_ lang with
  | some bucket =>
    match mapFind bucket text_id with
    | some t => (t, c)
    | none => (get_text_fallback c text_id, c)
  | none => (get_text_fallback c text_id, c)

/-- The combined lookup `texts_[lang]` then `[text_id]`, as one observer:
`some` text exactly when `lang`'s bucket contains `text_id`. -/
def catFind (c : i18n_lang) (lang : String) (text_id : Nat) : Option String :=
  (mapFind c.texts_ lang).bind (fun bucket => mapFind bucket text_id)

end i18n_lang

/-! ### The locale resolver `get_sys_lang` -/

/-- The `DEFAULT_LANGUAGE` constant of `get_sys_lang`. -/
def DEFAULT_LANGUAGE : String := "en-US"

/-- `::tolower` of the C locale on a byte: only ASCII letters change. -/
def asciiLower (c : Char) : Char :=
  if 'A' ≤ c ∧ c ≤ 'Z' then Char.ofNat (c.toNat + 32) else c

/-- `::toupper` of the C locale on a byte: only ASCII letters change. -/
def asciiUpper (c : Char) : Char :=
  if 'a' ≤ c ∧ c ≤ 'z' then Char.ofNat (c.toNat - 32) else c

/-- Model of `std::replace(begin, end, '_', '-')`. -/
def replaceUnderscores (l : List Char) : List Char :=
  l.map (fun c => if c = '_' then '-' else c)

/-- Model of `std::string::find(ch)`: index of the first occurrence. -/
def findCh (ch : Char) : List Char → Option Nat
  | [] => none
  | c :: rest => if c = ch then some 0 else (findCh ch rest).map (· + 1)

/-- Model of `std::transform(begin + lo, begin + hi, begin + lo, f)` on a
string traversed from position `i`: `f` is applied exactly to the
positions in `[lo, hi)`. -/
def transformFrom (f : Char → Char) (lo hi i : Nat) : List Char → List Char
  | [] => []
  | c :: rest => (if lo ≤ i ∧ i < hi then f c else c) :: transformFrom f lo hi (i + 1) rest

/-- Model of `find(ch)` followed by `substr(0, pos)` / `erase(pos)`: the
string up to the first occurrence of `ch`, or the whole string. -/
def stripFrom (ch : Char) (l : List Char) : List Char :=
  match findCh ch l with
  | some p => l.take p
  | none => l

/-- The case-adjustment step of the POSIX branch, lines 100-105: when the
first hyphen exists and is not the final character, `std::transform`
lowercases the positions before it and uppercases the positions after
it. -/
def posixCase (r : List Char) : List Char :=
  match findCh '-' r with
  | some d =>
    if d + 1 < r.length then
      transformFrom asciiUpper (d + 1) r.length 0 (transformFrom asciiLower 0 d 0 r)
    else r
  | none => r

/-- The POSIX-branch normalization of `get_sys_lang`, lines 92-116:
special-case "C"/"POSIX", replace underscores, case-adjust around the
first hyphen, then truncate at the first '.' and at the first '@'. -/
def posix_normalize (s : String) : String :=
  if s = "C" ∨ s = "POSIX" then DEFAULT_LANGUAGE
  else String.mk (stripFrom '@' (stripFrom '.' (posixCase (replaceUnderscores s.data))))

/-- The case adjustment exactly as the specification words it: the part
before the first hyphen is lowercased and the part after it is uppercased
unconditionally, whenever a first hyphen exists. -/
def posixCaseSpec (r : List Char) : List Char :=
  match findCh '-' r with
  | some d => (r.take d).map asciiLower ++ '-' :: (r.drop (d + 1)).map asciiUpper
  | none => r

/-- The case adjustment as the specification words it, amended with the
guard the code actually has: it happens only when the first hyphen is
followed by at least one character. -/
def posixCaseAmended (r : List Char) : List Char :=
  match findCh '-' r with
  | some d =>
    if d + 1 < r.length then
      (r.take d).map asciiLower ++ '-' :: (r.drop (d + 1)).map asciiUpper
    else r
  | none => r

/-- The POSIX normalization exactly as the specification words it. -/
def posix_normalize_spec (s : String) : String :=
  if s = "C" ∨ s = "POSIX" then DEFAULT_LANGUAGE
  else
    String.mk (List.takeWhile (· ≠ '@')
      (List.takeWhile (· ≠ '.') (posixCaseSpec (replaceUnderscores s.data))))

/-- The POSIX normalization as the specification words it, amended with
the guard on the case adjustment. -/
def posix_normalize_amended (s : String) : String :=
  if s = "C" ∨ s = "POSIX" then DEFAULT_LANGUAGE
  else
    String.mk (List.takeWhile (· ≠ '@')
      (List.takeWhile (· ≠ '.') (posixCaseAmended (replaceUnderscores s.data))))

/-- The truncation step of the Apple branch, lines 65-73: find the first
hyphen, find a second one after it, and erase from the second one
onward. -/
def appleTrim (r : List Char) : List Char :=
  match findCh '-' r with
  | some d1 =>
    (match findCh '-' (r.drop (d1 + 1)) with
     | some k => r.take (d1 + 1 + k)
     | none => r)
  | none => r

/-- The Apple-branch normalization of `get_sys_lang`, lines 62-73:
replace underscores with hyphens, then erase everything from the second
hyphen onward when a second hyphen exists. -/
def apple_normalize (s : String) : String :=
  String.mk (appleTrim (replaceUnderscores s.data))

/-- "Drop everything from the second hyphen onward", written as the
specification describes it: copy characters, keep the first hyphen, stop
at a second hyphen.  `seen` records whether a hyphen has been passed. -/
def dropFromSecondHyphen (seen : Bool) : List Char → List Char
  | [] => []
  | c :: rest =>
    if c = '-' then
      (if seen then [] else c :: dropFromSecondHyphen true rest)
    else c :: dropFromSecondHyphen seen rest

/-- The outcome of the Windows locale query as `get_sys_lang` observes
it: `GetUserDefaultLocaleName` can fail, either `WideCharToMultiByte`
call can fail, or a locale-name string is produced. -/
inductive WinLocale where
  | queryFail
  | convSizeFail
  | convWriteFail
  | ok (s : String)
deriving DecidableEq

/-- The Windows branch of `get_sys_lang`, lines 29-46: every failure
returns `DEFAULT_LANGUAGE`; a converted locale name is returned
unmodified. -/
def get_sys_lang_windows : WinLocale → String
  | WinLocale.queryFail => DEFAULT_LANGUAGE
  | WinLocale.convSizeFail => DEFAULT_LANGUAGE
  | WinLocale.convWriteFail => DEFAULT_LANGUAGE
  | WinLocale.ok s => s

/-- The outcome of the Apple locale query as `get_sys_lang` observes it:
`CFLocaleCopyCurrent` can return null, `CFStringGetCString` can fail, or
an identifier string is produced. -/
inductive AppleLocale where
  | copyFail
  | getCStringFail
  | ok (s : String)
deriving DecidableEq

/-- The Apple branch of `get_sys_lang`, lines 50-77: a null locale
returns `DEFAULT_LANGUAGE`; a failed `CFStringGetCString` leaves `result`
at `DEFAULT_LANGUAGE`; a successful extraction is normalized. -/
def get_sys_lang_apple : AppleLocale → String
  | AppleLocale.copyFail => DEFAULT_LANGUAGE
  | AppleLocale.getCStringFail => DEFAULT_LANGUAGE
  | AppleLocale.ok s => apple_normalize s

/-- One step of the environment-variable chain: keep the current value
unless it is null (`none`) or empty, in which case fall through to the
next `getenv` result. -/
def chainStep (o next : Option String) : Option String :=
  match o with
  | none => next
  | some v => if v = "" then next else some v

/-- The environment-variable chain of the POSIX branch, lines 82-86: a
null or empty `LC_ALL` falls through to `LC_MESSAGES`, then to `LANG`.
`none` models an unset variable, `some ""` an empty one. -/
def getenvChain (env : String → Option String) : Option String :=
  chainStep (chainStep (env "LC_ALL") (env "LC_MESSAGES")) (env "LANG")

/-- The POSIX branch of `get_sys_lang`, lines 82-116, as a function of
the environment: resolve the variable chain, return `DEFAULT_LANGUAGE`
when it ends null or empty, otherwise normalize the value. -/
def get_sys_lang_posix (env : String → Option String) : String :=
  match getenvChain env with
  | none => DEFAULT_LANGUAGE
  | some v => if v = "" then DEFAULT_LANGUAGE else posix_normalize v

/-- The fallback branch of `get_sys_lang` for unsupported platforms,
line 120. -/
def get_sys_lang_other : String := DEFAULT_LANGUAGE

/-- "The first of these that is set and non-empty", as the specification
words the environment-variable priority. -/
def firstSetNonempty : List (Option String) → Option String
  | [] => none
  | none :: rest => firstSetNonempty rest
  | some v :: rest => if v = "" then firstSetNonempty rest else some v

/-! ### Lemmas about the association-list map operations -/

theorem mapFind_mapSet_self {α β : Type} [DecidableEq α] (m : List (α × β)) (k : α) (v : β) :
    mapFind (mapSet m k v) k = some v := by
  induction m with
  | nil => simp [mapSet, mapFind]
  | cons kv rest ih =>
    obtain ⟨k', v'⟩ := kv
    by_cases h : k' = k
    · simp [mapSet, mapFind, h]
    · simp [mapSet, mapFind, h, ih]

theorem mapFind_append_single {α β : Type} [DecidableEq α] (m : List (α × β)) (k : α) (v : β)
    (x : α) :
    mapFind (m ++ [(k, v)]) x =
      match mapFind m x with
      | some t => some t
      | none => if k = x then some v else none := by
  induction m with
  | nil => simp [mapFind]
  | cons kv rest ih =>
    obtain ⟨k', v'⟩ := kv
    by_cases h : k' = x
    · simp [mapFind, h]
    · simp [mapFind, h, ih]

theorem insertRange_find {α β : Type} [DecidableEq α] (e : List (α × β)) (m : List (α × β))
    (x : α) :
    mapFind (insertRange m e) x =
      match mapFind m x with
      | some t => some t
      | none => mapFind e x := by
  induction e generalizing m with
  | nil => cases h : mapFind m x <;> simp [insertRange, h, mapFind]
  | cons kv rest ih =>
    obtain ⟨k, v⟩ := kv
    show mapFind (insertRange (if (mapFind m k).isSome then m else m ++ [(k, v)]) rest) x = _
    by_cases hk : (mapFind m k).isSome
    · rw [if_pos hk, ih]
      cases hmx : mapFind m x with
      | some t => rfl
      | none =>
        by_cases hkx : k = x
        · subst hkx
          rw [hmx] at hk
          simp at hk
        · simp [mapFind, hkx]
    · rw [if_neg hk, ih, mapFind_append_single]
      cases hmx : mapFind m x with
      | some t => rfl
      | none =>
        by_cases hkx : k = x
        · simp [mapFind, hkx]
        · simp [mapFind, hkx]

/-! ### Lemmas about `findCh` and the character-list pipeline -/

theorem findCh_eq_none {ch : Char} {l : List Char} (h : findCh ch l = none) : ch ∉ l := by
  induction l with
  | nil => simp
  | cons c rest ih =>
    simp only [findCh] at h
    by_cases hc : c = ch
    · rw [if_pos hc] at h
      exact absurd h (by simp)
    · rw [if_neg hc] at h
      have h' : findCh ch rest = none := Option.map_eq_none'.mp h
      have := ih h'
      simp [List.mem_cons, this]
      exact fun he => hc he.symm

theorem findCh_eq_some {ch : Char} : ∀ {l : List Char} {d : Nat}, findCh ch l = some d →
    ∃ a b, l = a ++ ch :: b ∧ ch ∉ a ∧ a.length = d
  | [], d, h => by simp [findCh] at h
  | c :: rest, d, h => by
    by_cases hc : c = ch
    · subst hc
      simp only [findCh, eq_self_iff_true, if_true, Option.some.injEq] at h
      exact ⟨[], rest, by simp, by simp, by simpa using h⟩
    · simp only [findCh, if_neg hc] at h
      obtain ⟨d', hd', hsucc⟩ := Option.map_eq_some'.mp h
      obtain ⟨a, b, hl, ha, hlen⟩ := findCh_eq_some hd'
      refine ⟨c :: a, b, by simp [hl], ?_, by simp [hlen, hsucc]⟩
      simp [List.mem_cons, ha]
      exact fun he => hc he.symm

theorem dropFromSecondHyphen_no_hyphen (seen : Bool) {l : List Char} (h : '-' ∉ l) :
    dropFromSecondHyphen seen l = l := by
  induction l with
  | nil => rfl
  | cons c rest ih =>
    rw [List.mem_cons] at h
    push_neg at h
    obtain ⟨h1, h2⟩ := h
    simp only [dropFromSecondHyphen]
    rw [if_neg (fun hc => h1 hc.symm), ih h2]

theorem dropFromSecondHyphen_false_extend {a : List Char} (rest : List Char) (h : '-' ∉ a) :
    dropFromSecondHyphen false (a ++ '-' :: rest) =
      a ++ '-' :: dropFromSecondHyphen true rest := by
  induction a with
  | nil => simp [dropFromSecondHyphen]
  | cons c a' ih =>
    rw [List.mem_cons] at h
    push_neg at h
    obtain ⟨h1, h2⟩ := h
    simp only [List.cons_append, dropFromSecondHyphen, List.append_eq]
    rw [if_neg (fun hc => h1 hc.symm), ih h2]

theorem dropFromSecondHyphen_true_stop {b : List Char} (rest : List Char) (h : '-' ∉ b) :
    dropFromSecondHyphen true (b ++ '-' :: rest) = b := by
  induction b with
  | nil => simp [dropFromSecondHyphen]
  | cons c b' ih =>
    rw [List.mem_cons] at h
    push_neg at h
    obtain ⟨h1, h2⟩ := h
    simp only [List.cons_append, dropFromSecondHyphen, List.append_eq]
    rw [if_neg (fun hc => h1 hc.symm), ih h2]

theorem transformFrom_past (f : Char → Char) (hi : Nat) (l : List Char) :
    ∀ i, hi ≤ i → transformFrom f 0 hi i l = l := by
  induction l with
  | nil => intro i _; rfl
  | cons c rest ih =>
    intro i h
    simp only [transformFrom]
    rw [if_neg (fun hc => absurd hc.2 (Nat.not_lt.mpr h)), ih (i + 1) (Nat.le_succ_of_le h)]

theorem transformFrom_initial (f : Char → Char) (b : List Char) :
    ∀ (a : List Char) (i : Nat), transformFrom f 0 (i + a.length) i (a ++ b) = a.map f ++ b := by
  intro a
  induction a with
  | nil =>
    intro i
    simpa using transformFrom_past f i b i le_rfl
  | cons c a' ih =>
    intro i
    simp only [List.cons_append, transformFrom, List.map_cons, List.length_cons,
      List.append_eq]
    rw [if_pos ⟨Nat.zero_le i, by omega⟩]
    have harith : i + (a'.length + 1) = (i + 1) + a'.length := by omega
    rw [harith, ih (i + 1)]

theorem transformFrom_before (f : Char → Char) (lo hi : Nat) (b : List Char) :
    ∀ (a : List Char) (i : Nat), i + a.length ≤ lo →
    transformFrom f lo hi i (a ++ b) = a ++ transformFrom f lo hi (i + a.length) b := by
  intro a
  induction a with
  | nil => intro i _; simp
  | cons c a' ih =>
    intro i h
    simp only [List.length_cons] at h
    simp only [List.cons_append, transformFrom, List.length_cons, List.append_eq]
    rw [if_neg (fun hc => absurd hc.1 (by omega))]
    have harith : i + (a'.length + 1) = (i + 1) + a'.length := by omega
    rw [harith, ih (i + 1) (by omega)]

theorem transformFrom_inside (f : Char → Char) (lo hi : Nat) :
    ∀ (l : List Char) (i : Nat), lo ≤ i → i + l.length ≤ hi →
    transformFrom f lo hi i l = l.map f := by
  intro l
  induction l with
  | nil => intro i _ _; rfl
  | cons c rest ih =>
    intro i h1 h2
    simp only [List.length_cons] at h2
    simp only [transformFrom, List.map_cons]
    rw [if_pos ⟨h1, by omega⟩, ih (i + 1) (by omega) (by omega)]

theorem stripFrom_eq_takeWhile (ch : Char) (l : List Char) :
    stripFrom ch l = l.takeWhile (· ≠ ch) := by
  induction l with
  | nil => rfl
  | cons c rest ih =>
    by_cases hc : c = ch
    · subst hc
      simp only [stripFrom, findCh, eq_self_iff_true, if_true, List.take_zero,
        List.takeWhile_cons]
      simp
    · have hstrip : stripFrom ch (c :: rest) = c :: stripFrom ch rest := by
        simp only [stripFrom, findCh, if_neg hc]
        cases h : findCh ch rest with
        | none => simp
        | some p => simp
      rw [hstrip, List.takeWhile_cons, if_pos (by simp [hc]), ih]

theorem posixCase_eq_amended (r : List Char) : posixCase r = posixCaseAmended r := by
  unfold posixCase posixCaseAmended
  cases h : findCh '-' r with
  | none => rfl
  | some d =>
    obtain ⟨a, b, rfl, ha, hlen⟩ := findCh_eq_some h
    subst hlen
    dsimp only
    by_cases hg : a.length + 1 < (a ++ '-' :: b).length
    · rw [if_pos hg, if_pos hg]
      have htake : (a ++ '-' :: b).take a.length = a := List.take_left a ('-' :: b)
      have hdrop : (a ++ '-' :: b).drop (a.length + 1) = b := by
        rw [show a ++ '-' :: b = (a ++ ['-']) ++ b by simp,
            show a.length + 1 = (a ++ ['-']).length by simp]
        exact List.drop_left _ _
      rw [htake, hdrop]
      have h1 : transformFrom asciiLower 0 a.length 0 (a ++ '-' :: b) =
          List.map asciiLower a ++ '-' :: b := by
        have := transformFrom_initial asciiLower ('-' :: b) a 0
        simpa using this
      rw [h1]
      rw [show List.map asciiLower a ++ '-' :: b = (List.map asciiLower a ++ ['-']) ++ b by simp]
      rw [transformFrom_before asciiUpper (a.length + 1) (a ++ '-' :: b).length b
        (List.map asciiLower a ++ ['-']) 0 (by simp)]
      rw [transformFrom_inside asciiUpper (a.length + 1) (a ++ '-' :: b).length b
        (0 + (List.map asciiLower a ++ ['-']).length)
        (by simp)
        (by simp only [Nat.zero_add, List.length_append, List.length_map, List.length_cons,
              List.length_nil]
            omega)]
      simp
    · rw [if_neg hg, if_neg hg]

theorem appleTrim_eq_dropFromSecondHyphen (r : List Char) :
    appleTrim r = dropFromSecondHyphen false r := by
  unfold appleTrim
  cases h1 : findCh '-' r with
  | none => rw [dropFromSecondHyphen_no_hyphen false (findCh_eq_none h1)]
  | some d1 =>
    obtain ⟨a, b, rfl, ha, hlen⟩ := findCh_eq_some h1
    subst hlen
    dsimp only
    have hdrop : (a ++ '-' :: b).drop (a.length + 1) = b := by
      rw [show a ++ '-' :: b = (a ++ ['-']) ++ b by simp,
          show a.length + 1 = (a ++ ['-']).length by simp]
      exact List.drop_left _ _
    rw [hdrop]
    cases h2 : findCh '-' b with
    | none =>
      dsimp only
      rw [dropFromSecondHyphen_false_extend b ha,
          dropFromSecondHyphen_no_hyphen true (findCh_eq_none h2)]
    | some k =>
      obtain ⟨b1, b2, rfl, hb1, hklen⟩ := findCh_eq_some h2
      subst hklen
      dsimp only
      have htake : (a ++ '-' :: (b1 ++ '-' :: b2)).take (a.length + 1 + b1.length) =
          a ++ '-' :: b1 := by
        rw [show a ++ '-' :: (b1 ++ '-' :: b2) = (a ++ '-' :: b1) ++ '-' :: b2 by simp,
            show a.length + 1 + b1.length = (a ++ '-' :: b1).length by
              simp only [List.length_append, List.length_cons]
              omega]
        exact List.take_left _ _
      rw [htake, dropFromSecondHyphen_false_extend (b1 ++ '-' :: b2) ha,
          dropFromSecondHyphen_true_stop b2 hb1]

theorem chainResult_eq_firstSetNonempty (o1 o2 o3 : Option String) :
    (match chainStep (chainStep o1 o2) o3 with
     | none => DEFAULT_LANGUAGE
     | some v => if v = "" then DEFAULT_LANGUAGE else posix_normalize v) =
    (match firstSetNonempty [o1, o2, o3] with
     | none => DEFAULT_LANGUAGE
     | some v => posix_normalize v) := by
  rcases o1 with _ | v1 <;> rcases o2 with _ | v2 <;> rcases o3 with _ | v3 <;>
    simp only [chainStep, firstSetNonempty] <;> split_ifs <;> simp_all [firstSetNonempty]

theorem get_sys_lang_posix_eq_first (env : String → Option String) :
    get_sys_lang_posix env =
      match firstSetNonempty [env "LC_ALL", env "LC_MESSAGES", env "LANG"] with
      | none => DEFAULT_LANGUAGE
      | some v => posix_normalize v := by
  unfold get_sys_lang_posix getenvChain
  exact chainResult_eq_firstSetNonempty _ _ _

theorem get_text_eq_catFind (c : i18n_lang) (lang : String) (text_id : Nat) :
    i18n_lang.get_text c lang text_id =
      match i18n_lang.catFind c lang text_id with
      | some t => t
      | none =>
        match i18n_lang.catFind c c.default_lang_ text_id with
        | some t => t
        | none => i18n_lang.get_default_error_text := by
  unfold i18n_lang.get_text i18n_lang.get_text_fallback i18n_lang.catFind
  cases h1 : mapFind c.texts_ lang with
  | none =>
    dsimp only
    cases h2 : mapFind c.texts_ c.default_lang_ with
    | none => simp [h2]
    | some b2 =>
      dsimp only
      cases h3 : mapFind b2 text_id <;> simp [h2, h3]
  | some b1 =>
    dsimp only
    cases h4 : mapFind b1 text_id with
    | some t => simp [h4]
    | none =>
      dsimp only
      cases h2 : mapFind c.texts_ c.default_lang_ with
      | none => simp [h2, h4]
      | some b2 =>
        dsimp only
        cases h3 : mapFind b2 text_id <;> simp [h2, h3, h4]

theorem get_text_st_state (c : i18n_lang) (lang : String) (text_id : Nat) :
    (i18n_lang.get_text_st c lang text_id).2 = c := by
  unfold i18n_lang.get_text_st
  cases mapFind c.texts_ lang with
  | none => rfl
  | some b =>
    dsimp only
    cases mapFind b text_id <;> rfl

theorem get_text_st_fst (c : i18n_lang) (lang : String) (text_id : Nat) :
    (i18n_lang.get_text_st c lang text_id).1 = i18n_lang.get_text c lang text_id := by
  unfold i18n_lang.get_text_st i18n_lang.get_text
  cases mapFind c.texts_ lang with
  | none => rfl
  | some b =>
    dsimp only
    cases mapFind b text_id <;> rfl

/-! ### The claims -/

/-- Claim C1: for every catalog state and every `(lang, id)`, `get_text`
returns the text stored under `(lang, id)` when `lang`'s bucket contains
`id`; otherwise the default language's text when its bucket contains
`id`; otherwise the sentinel.  The requested language takes priority, and
the sentinel appears only when both buckets lack the id. -/
theorem claim_C1 (c : i18n_lang) (lang : String) (text_id : Nat) :
    (∀ t, i18n_lang.catFind c lang text_id = some t →
      i18n_lang.get_text c lang text_id = t) ∧
    (i18n_lang.catFind c lang text_id = none →
      ∀ t, i18n_lang.catFind c c.default_lang_ text_id = some t →
        i18n_lang.get_text c lang text_id = t) ∧
    (i18n_lang.catFind c lang text_id = none →
      i18n_lang.catFind c c.default_lang_ text_id = none →
      i18n_lang.get_text c lang text_id = i18n_lang.get_default_error_text) := by
  refine ⟨?_, ?_, ?_⟩
  · intro t ht
    rw [get_text_eq_catFind, ht]
  · intro hn t ht
    rw [get_text_eq_catFind, hn]
    dsimp only
    rw [ht]
  · intro hn hd
    rw [get_text_eq_catFind, hn]
    dsimp only
    rw [hd]

/-- Witness for C1: a concrete catalog exercising the direct hit, the
default-language fallback, and the sentinel case. -/
theorem claim_C1_witness :
    i18n_lang.get_text (i18n_lang.initWith "en-US"
      [("en-US", [(1, "Hello")]), ("fr-FR", [(1, "Bonjour")])]) "fr-FR" 1 = "Bonjour" ∧
    i18n_lang.get_text (i18n_lang.initWith "en-US"
      [("en-US", [(1, "Hello")]), ("fr-FR", [(1, "Bonjour")])]) "de-DE" 1 = "Hello" ∧
    i18n_lang.get_text (i18n_lang.initWith "en-US"
      [("en-US", [(1, "Hello")]), ("fr-FR", [(1, "Bonjour")])]) "fr-FR" 99 =
      i18n_lang.get_default_error_text :=
  ⟨(claim_C1 _ "fr-FR" 1).1 "Bonjour" (by decide),
   (claim_C1 _ "de-DE" 1).2.1 (by decide) "Hello" (by decide),
   (claim_C1 _ "fr-FR" 99).2.2 (by decide) (by decide)⟩

/-- Counterexample to claim C2 as stated: on the resolved value "ZH_" the
code's guard `dash_pos + 1 < result.size()` is false (the hyphen is the
final character), so no casing happens and the code returns "ZH-", while
the claim's unconditional casing rule yields "zh-". -/
theorem claim_C2_counterexample :
    posix_normalize "ZH_" = "ZH-" ∧ posix_normalize_spec "ZH_" = "zh-" ∧
    posix_normalize "ZH_" ≠ posix_normalize_spec "ZH_" := by
  decide

/-- Claim C2 (amended): the POSIX normalization maps "C" and "POSIX" to
the fallback, and otherwise replaces underscores by hyphens, lowercases
before / uppercases after the first hyphen provided that hyphen is not
the final character (otherwise the casing is left unchanged), and strips
the '.'-suffix and the '@'-suffix; in particular "zh_CN.UTF-8" yields
"zh-CN" and "fr_FR@euro" yields "fr-FR". -/
theorem claim_C2 :
    (∀ s, posix_normalize s = posix_normalize_amended s) ∧
    posix_normalize "zh_CN.UTF-8" = "zh-CN" ∧
    posix_normalize "fr_FR@euro" = "fr-FR" ∧
    posix_normalize "C" = "en-US" ∧
    posix_normalize "POSIX" = "en-US" := by
  refine ⟨?_, by decide, by decide, by decide, by decide⟩
  intro s
  unfold posix_normalize posix_normalize_amended
  by_cases hs : s = "C" ∨ s = "POSIX"
  · rw [if_pos hs, if_pos hs]
  · rw [if_neg hs, if_neg hs, posixCase_eq_amended,
        stripFrom_eq_takeWhile, stripFrom_eq_takeWhile]

/-- Claim C3: after `set_texts(lang, entries)`, every id already present
in `lang`'s bucket keeps its previous text, and every id of `entries` not
previously present is added with the text given in `entries`. -/
theorem claim_C3 (c : i18n_lang) (lang : String) (entries : List (Nat × String))
    (text_id : Nat) :
    (∀ t, mapFind (i18n_lang.bucketOf c lang) text_id = some t →
      mapFind (i18n_lang.bucketOf (i18n_lang.set_texts c lang entries) lang) text_id =
        some t) ∧
    (mapFind (i18n_lang.bucketOf c lang) text_id = none →
      mapFind (i18n_lang.bucketOf (i18n_lang.set_texts c lang entries) lang) text_id =
        mapFind entries text_id) := by
  have hb : i18n_lang.bucketOf (i18n_lang.set_texts c lang entries) lang =
      insertRange (i18n_lang.bucketOf c lang) entries := by
    simp [i18n_lang.bucketOf, i18n_lang.set_texts, mapFind_mapSet_self]
  constructor
  · intro t ht
    rw [hb, insertRange_find, ht]
  · intro hn
    rw [hb, insertRange_find, hn]

/-- Witness for C3: a bucket holding id 1 keeps its old text after a bulk
insert that also offers id 1, and the fresh id 2 is added. -/
theorem claim_C3_witness :
    mapFind (i18n_lang.bucketOf (i18n_lang.set_texts
      (i18n_lang.initWith "en" [("en", [(1, "old")])]) "en" [(1, "new"), (2, "two")]) "en") 1 =
      some "old" ∧
    mapFind (i18n_lang.bucketOf (i18n_lang.set_texts
      (i18n_lang.initWith "en" [("en", [(1, "old")])]) "en" [(1, "new"), (2, "two")]) "en") 2 =
      some "two" :=
  ⟨(claim_C3 (i18n_lang.initWith "en" [("en", [(1, "old")])]) "en"
      [(1, "new"), (2, "two")] 1).1 "old" (by decide),
   ((claim_C3 (i18n_lang.initWith "en" [("en", [(1, "old")])]) "en"
      [(1, "new"), (2, "two")] 2).2 (by decide)).trans (by decide)⟩

/-- Claim C4: `set_text(lang, id, t)` followed immediately by
`get_text(lang, id)` returns exactly `t`, whatever the prior state. -/
theorem claim_C4 (c : i18n_lang) (lang : String) (text_id : Nat) (text : String) :
    i18n_lang.get_text (i18n_lang.set_text c lang text_id text) lang text_id = text := by
  unfold i18n_lang.get_text i18n_lang.set_text
  dsimp only
  rw [mapFind_mapSet_self]
  dsimp only
  rw [mapFind_mapSet_self]

/-- Claim C5: the POSIX branch resolves its input by reading `LC_ALL`,
then `LC_MESSAGES`, then `LANG`, using the first that is set and
non-empty, and returns the fallback "en-US" when none is. -/
theorem claim_C5 (env : String → Option String) :
    get_sys_lang_posix env =
      match firstSetNonempty [env "LC_ALL", env "LC_MESSAGES", env "LANG"] with
      | none => "en-US"
      | some v => posix_normalize v :=
  get_sys_lang_posix_eq_first env

/-- Claim C6: the Apple-class normalization replaces underscores by
hyphens and, when the result contains a second hyphen, drops everything
from that second hyphen onward; in particular "zh_Hans_CN" yields
"zh-Hans". -/
theorem claim_C6 :
    (∀ s, apple_normalize s =
      String.mk (dropFromSecondHyphen false (replaceUnderscores s.data))) ∧
    apple_normalize "zh_Hans_CN" = "zh-Hans" := by
  refine ⟨?_, by decide⟩
  intro s
  unfold apple_normalize
  rw [appleTrim_eq_dropFromSecondHyphen]

/-- Claim C7: every detection-failure path of every platform branch of
`get_sys_lang` returns the fallback "en-US", and the unsupported-platform
branch returns "en-US" unconditionally. -/
theorem claim_C7 :
    (∀ w : WinLocale, w = WinLocale.queryFail ∨ w = WinLocale.convSizeFail ∨
        w = WinLocale.convWriteFail → get_sys_lang_windows w = "en-US") ∧
    (∀ a : AppleLocale, a = AppleLocale.copyFail ∨ a = AppleLocale.getCStringFail →
        get_sys_lang_apple a = "en-US") ∧
    (∀ env : String → Option String,
        firstSetNonempty [env "LC_ALL", env "LC_MESSAGES", env "LANG"] = none →
        get_sys_lang_posix env = "en-US") ∧
    (∀ (env : String → Option String) (v : String),
        firstSetNonempty [env "LC_ALL", env "LC_MESSAGES", env "LANG"] = some v →
        v = "C" ∨ v = "POSIX" → get_sys_lang_posix env = "en-US") ∧
    get_sys_lang_other = "en-US" := by
  refine ⟨?_, ?_, ?_, ?_, rfl⟩
  · rintro w (rfl | rfl | rfl) <;> rfl
  · rintro a (rfl | rfl) <;> rfl
  · intro env h
    rw [get_sys_lang_posix_eq_first, h]
    rfl
  · intro env v h hv
    rw [get_sys_lang_posix_eq_first, h]
    dsimp only
    unfold posix_normalize
    rw [if_pos hv]
    rfl

/-- Witness for C7: each failure shape evaluated at a concrete input. -/
theorem claim_C7_witness :
    get_sys_lang_windows WinLocale.queryFail = "en-US" ∧
    get_sys_lang_apple AppleLocale.copyFail = "en-US" ∧
    get_sys_lang_posix (fun _ => none) = "en-US" ∧
    get_sys_lang_posix (fun _ => some "C") = "en-US" :=
  ⟨claim_C7.1 WinLocale.queryFail (Or.inl rfl),
   claim_C7.2.1 AppleLocale.copyFail (Or.inl rfl),
   claim_C7.2.2.1 (fun _ => none) (by decide),
   claim_C7.2.2.2.1 (fun _ => some "C") "C" (by decide) (Or.inl rfl)⟩

/-- Claim C8: `get_default_error_text` is the constant "TEXT_NOT_FOUND",
and `get_text` returns exactly it whenever neither the requested nor the
default language's bucket contains the id. -/
theorem claim_C8 (c : i18n_lang) (lang : String) (text_id : Nat)
    (h1 : i18n_lang.catFind c lang text_id = none)
    (h2 : i18n_lang.catFind c c.default_lang_ text_id = none) :
    i18n_lang.get_text c lang text_id = i18n_lang.get_default_error_text ∧
    i18n_lang.get_default_error_text = "TEXT_NOT_FOUND" := by
  refine ⟨?_, rfl⟩
  rw [get_text_eq_catFind, h1]
  dsimp only
  rw [h2]

/-- Witness for C8: the freshly constructed catalog misses every id. -/
theorem claim_C8_witness :
    i18n_lang.get_text (i18n_lang.init "en-US") "fr-FR" 1 =
      i18n_lang.get_default_error_text ∧
    i18n_lang.get_default_error_text = "TEXT_NOT_FOUND" :=
  claim_C8 (i18n_lang.init "en-US") "fr-FR" 1 (by decide) (by decide)

/-- Claim C9: the default language key is fixed by either constructor and
left unchanged by `set_text`, `set_texts` and `get_text`. -/
theorem claim_C9 (d : String) (ts : List (String × List (Nat × String))) (c : i18n_lang)
    (lang lang2 : String) (text_id text_id2 : Nat) (text : String)
    (entries : List (Nat × String)) :
    (i18n_lang.init d).default_lang_ = d ∧
    (i18n_lang.initWith d ts).default_lang_ = d ∧
    (i18n_lang.set_text c lang text_id text).default_lang_ = c.default_lang_ ∧
    (i18n_lang.set_texts c lang2 entries).default_lang_ = c.default_lang_ ∧
    ((i18n_lang.get_text_st c lang text_id2).2).default_lang_ = c.default_lang_ :=
  ⟨rfl, rfl, rfl, rfl, by rw [get_text_st_state]⟩

/-- Claim C10: `get_text` is a pure observer: the state-threaded
translation returns the catalog unchanged on every path (in particular an
absent language key creates no bucket), and its result is the text
`get_text` computes. -/
theorem claim_C10 (c : i18n_lang) (lang : String) (text_id : Nat) :
    (i18n_lang.get_text_st c lang text_id).2 = c ∧
    (i18n_lang.get_text_st c lang text_id).1 = i18n_lang.get_text c lang text_id :=
  ⟨get_text_st_state c lang text_id, get_text_st_fst c lang text_id⟩
